import Mathlib

set_option maxRecDepth 2000

/-!
Verification of the document-ingestion and conversational-retrieval pipeline.

The definitions below are shallow embeddings of the Python sources:
* `PyStr` provides executable models of the Python string primitives used by
  the pipeline (`split`, `strip`, `join`, `replace`, `len(s.encode("utf-8"))`),
* `AutoIndex` embeds `awakened/auto-index.py` (`EbookProcessor`),
* `AutoIndexing` embeds `auto-indexing.py` (`process_files`),
* `BatchProcessor` embeds `awakened/batch_processor.py`
  (`PineconeManager`, `StorageProcessor`, `BatchPDFProcessor`),
* `LangchainAI` embeds `ai/langchain.py` and `routers/langchain.py`.
-/

namespace PyStr

/-- Python `text.split(sep)` for a one-character separator, on char lists:
every occurrence of `sep` starts a new piece, empty pieces included. -/
def splitCharList (sep : Char) : List Char → List (List Char)
  | [] => [[]]
  | x :: xs =>
    match splitCharList sep xs, decide (x = sep) with
    | r, true => [] :: r
    | [], false => [[x]]
    | y :: ys, false => (x :: y) :: ys

/-- Python `text.split(sep)` for a one-character separator. -/
def split (sep : Char) (s : String) : List String :=
  (splitCharList sep s.data).map String.mk

/-- Python `s.strip()`: drop leading and trailing whitespace. -/
def strip (s : String) : String :=
  String.mk (((s.data.dropWhile Char.isWhitespace).reverse.dropWhile
    Char.isWhitespace).reverse)

/-- Python `len(s.encode("utf-8"))`: total UTF-8 byte size. -/
def byteLen (s : String) : Nat := (s.data.map Char.utf8Size).sum

/-- Python `sep.join(parts)`. -/
def joinSep (sep : String) : List String → String
  | [] => ""
  | [s] => s
  | s :: rest => s ++ sep ++ joinSep sep rest

/-- Python `s.replace(c, r)` where the pattern is a single character. -/
def replaceCharList (c : Char) (r : List Char) : List Char → List Char
  | [] => []
  | x :: xs =>
    if x = c then r ++ replaceCharList c r xs else x :: replaceCharList c r xs

/-- Python `s.replace(c, r)` where the pattern is a single character. -/
def replaceChar (c : Char) (r : String) (s : String) : String :=
  String.mk (replaceCharList c r.data s.data)

/-- Python `"".join(parts)`: plain concatenation. -/
def concatAll (l : List String) : String := joinSep "" l

end PyStr

example : PyStr.split '.' "aaaa.bbbb." = ["aaaa", "bbbb", ""] := by decide

example : PyStr.strip " ab\n" = "ab" := by decide

example : PyStr.byteLen "aaaa. bbbb." = 11 := by decide

example : PyStr.joinSep " " ["aaaa.", "bbbb."] = "aaaa. bbbb." := by decide

example : PyStr.replaceChar '\n' "\\n" "a\nb" = "a\\nb" := by decide

namespace AutoIndex

open PyStr

/-- Constant `EbookProcessor.MAX_CHUNK_SIZE`. -/
def MAX_CHUNK_SIZE : Nat := 1000

/-- The sentence sequence scanned by `EbookProcessor.chunk_text`:
`text.split('.')` with each fragment `strip()`-ed and `'.'` appended
(`sentence = sentence.strip() + '.'`). -/
def sentencesOf (text : String) : List String :=
  (split '.' text).map (fun s => strip s ++ ".")

/-- One iteration of the `for sentence in text.split('.')` loop of
`EbookProcessor.chunk_text`.  The accumulator is
`(chunks, current_chunk, current_size)`; `current_size` adds up the byte sizes
of the sentences in `current_chunk` (the joining spaces are not counted). -/
def chunkStep (T : Nat) (acc : List (List String) × List String × Nat)
    (s : String) : List (List String) × List String × Nat :=
  if acc.2.2 + byteLen s > T then
    (if acc.2.1 = [] then acc.1 else acc.1 ++ [acc.2.1], [s], byteLen s)
  else
    (acc.1, acc.2.1 ++ [s], acc.2.2 + byteLen s)

/-- The chunks of `EbookProcessor.chunk_text`, kept as sentence lists
(before `' '.join`); the trailing `if current_chunk:` flush included. -/
def chunkSentences (T : Nat) (ss : List String) : List (List String) :=
  let acc := ss.foldl (chunkStep T) ([], [], 0)
  if acc.2.1 = [] then acc.1 else acc.1 ++ [acc.2.1]

/-- Model of `EbookProcessor.chunk_text`: split into sentences, greedily pack them into
chunks of target byte size `T`, and `' '.join` each chunk.  The source fixes
`T := MAX_CHUNK_SIZE`; the target size is kept as a parameter. -/
def chunk_text (T : Nat) (text : String) : List String :=
  (chunkSentences T (sentencesOf text)).map (fun c => joinSep " " c)

example : sentencesOf "aaaa.bbbb." = ["aaaa.", "bbbb.", "."] := by decide

example : chunk_text 10 "aaaa.bbbb." = ["aaaa. bbbb.", "."] := by decide

example : chunk_text 1000 "ab" = ["ab."] := by decide

/-- Invariant of a single chunk: it is a single sentence, or the byte sizes of
its sentences (spaces not counted, exactly as `current_size` counts) total at
most `T`. -/
def ChunkOk (T : Nat) (c : List String) : Prop :=
  c.length = 1 ∨ (c.map byteLen).sum ≤ T

/-- Loop invariant of `chunk_text`: `current_size` is the byte total of
`current_chunk`, every emitted chunk satisfies `ChunkOk`, and so does the
chunk under construction. -/
def AccOk (T : Nat) (acc : List (List String) × List String × Nat) : Prop :=
  acc.2.2 = (acc.2.1.map byteLen).sum ∧
  (∀ c ∈ acc.1, ChunkOk T c) ∧ (acc.2.1 ≠ [] → ChunkOk T acc.2.1)

lemma accOk_step (T : Nat) (acc : List (List String) × List String × Nat)
    (s : String) (h : AccOk T acc) : AccOk T (chunkStep T acc s) := by
  obtain ⟨h1, h2, h3⟩ := h
  by_cases hgt : acc.2.2 + byteLen s > T
  · simp only [chunkStep, if_pos hgt]
    refine ⟨by simp, ?_, fun _ => Or.inl rfl⟩
    intro c hc
    by_cases hcur : acc.2.1 = []
    · rw [if_pos hcur] at hc
      exact h2 c hc
    · rw [if_neg hcur] at hc
      rcases List.mem_append.mp hc with hc | hc
      · exact h2 c hc
      · rw [List.mem_singleton.mp hc]
        exact h3 hcur
  · simp only [chunkStep, if_neg hgt]
    refine ⟨by simp; exact h1, h2, fun _ => Or.inr ?_⟩
    push_neg at hgt
    simpa [h1] using hgt

lemma accOk_foldl (T : Nat) (ss : List String)
    (acc : List (List String) × List String × Nat) (h : AccOk T acc) :
    AccOk T (ss.foldl (chunkStep T) acc) := by
  induction ss generalizing acc with
  | nil => exact h
  | cons s rest ih => exact ih _ (accOk_step T acc s h)

lemma chunkSentences_ok (T : Nat) (ss : List String) :
    ∀ c ∈ chunkSentences T ss, ChunkOk T c := by
  have h := accOk_foldl T ss ([], [], 0) ⟨rfl, by simp, by simp⟩
  obtain ⟨-, h2, h3⟩ := h
  intro c hc
  unfold chunkSentences at hc
  by_cases hcur : (ss.foldl (chunkStep T) ([], [], 0)).2.1 = []
  · rw [if_pos hcur] at hc
    exact h2 c hc
  · rw [if_neg hcur] at hc
    rcases List.mem_append.mp hc with hc | hc
    · exact h2 c hc
    · rw [List.mem_singleton.mp hc]
      exact h3 hcur

lemma byteLen_append (a b : String) : byteLen (a ++ b) = byteLen a + byteLen b := by
  simp [byteLen, PyStr.byteLen]

/-- Joining a nonempty chunk with single spaces is the sentences' byte total plus one
separator byte per additional sentence. -/
lemma byteLen_joinSep_space (c : List String) (hc : c ≠ []) :
    byteLen (joinSep " " c) + 1 = (c.map byteLen).sum + c.length := by
  induction c with
  | nil => exact absurd rfl hc
  | cons s rest ih =>
    cases rest with
    | nil => simp [joinSep]
    | cons t ts =>
      have h := ih (by simp)
      show byteLen (s ++ " " ++ joinSep " " (t :: ts)) + 1 = _
      rw [byteLen_append, byteLen_append]
      have hsp : byteLen " " = 1 := by decide
      simp only [List.map_cons, List.sum_cons, List.length_cons] at h ⊢
      omega

lemma foldl_chunkStep_join (T : Nat) (ss : List String) :
    ∀ (chunks : List (List String)) (cur : List String) (curSize : Nat),
      (ss.foldl (chunkStep T) (chunks, cur, curSize)).1.flatten ++
          (ss.foldl (chunkStep T) (chunks, cur, curSize)).2.1
        = chunks.flatten ++ cur ++ ss := by
  induction ss with
  | nil => intro chunks cur curSize; simp
  | cons s rest ih =>
    intro chunks cur curSize
    simp only [List.foldl_cons]
    by_cases hgt : curSize + byteLen s > T
    · by_cases hcur : cur = []
      · have hstep : chunkStep T (chunks, cur, curSize) s = (chunks, [s], byteLen s) := by
          simp [chunkStep, hgt, hcur]
        rw [hstep, ih]
        simp [hcur]
      · have hstep : chunkStep T (chunks, cur, curSize) s
            = (chunks ++ [cur], [s], byteLen s) := by
          simp [chunkStep, hgt, hcur]
        rw [hstep, ih]
        simp
    · have hstep : chunkStep T (chunks, cur, curSize) s
          = (chunks, cur ++ [s], curSize + byteLen s) := by
        simp [chunkStep, hgt]
      rw [hstep, ih]
      simp

lemma acc_ne_nil_step (T : Nat) (acc : List (List String) × List String × Nat)
    (s : String) (h : ∀ c ∈ acc.1, c ≠ []) :
    ∀ c ∈ (chunkStep T acc s).1, c ≠ [] := by
  by_cases hgt : acc.2.2 + byteLen s > T
  · simp only [chunkStep, if_pos hgt]
    by_cases hcur : acc.2.1 = []
    · simpa [hcur] using h
    · intro c hc
      rw [if_neg hcur] at hc
      rcases List.mem_append.mp hc with hc | hc
      · exact h c hc
      · rw [List.mem_singleton.mp hc]
        exact hcur
  · simpa [chunkStep, if_neg hgt] using h

lemma acc_ne_nil_foldl (T : Nat) (ss : List String)
    (acc : List (List String) × List String × Nat) (h : ∀ c ∈ acc.1, c ≠ []) :
    ∀ c ∈ (ss.foldl (chunkStep T) acc).1, c ≠ [] := by
  induction ss generalizing acc with
  | nil => exact h
  | cons s rest ih => exact ih _ (acc_ne_nil_step T acc s h)

/-- Every chunk of `chunk_text` holds at least one sentence. -/
lemma chunkSentences_ne_nil (T : Nat) (ss : List String) :
    ∀ c ∈ chunkSentences T ss, c ≠ [] := by
  have h := acc_ne_nil_foldl T ss ([], [], 0) (by simp)
  intro c hc
  unfold chunkSentences at hc
  by_cases hcur : (ss.foldl (chunkStep T) ([], [], 0)).2.1 = []
  · rw [if_pos hcur] at hc
    exact h c hc
  · rw [if_neg hcur] at hc
    rcases List.mem_append.mp hc with hc | hc
    · exact h c hc
    · rw [List.mem_singleton.mp hc]
      exact hcur

lemma chunkSentences_join (T : Nat) (ss : List String) :
    (chunkSentences T ss).flatten = ss := by
  have h := foldl_chunkStep_join T ss [] [] 0
  unfold chunkSentences
  by_cases hcur : (ss.foldl (chunkStep T) ([], [], 0)).2.1 = []
  · rw [if_pos hcur]
    rw [hcur] at h
    simpa using h
  · rw [if_neg hcur]
    simpa using h

/-- Size bound for `EbookProcessor.chunk_text`: every chunk either consists
of a single sentence, which is emitted whole (the chunk text is exactly that
sentence, never truncated, even when it is longer than `T`), or has sentence
byte sizes totalling at most `T`; in the latter case the chunk text's byte
length can exceed `T` only by the single-space separators, i.e. it is at most
`T + (number of sentences - 1)`. -/
lemma chunk_text_size_bound (T : Nat) (text : String) :
    ∀ c ∈ chunkSentences T (sentencesOf text),
      (∃ s, c = [s] ∧ joinSep " " c = s) ∨
      ((c.map byteLen).sum ≤ T ∧ byteLen (joinSep " " c) + 1 ≤ T + c.length) := by
  intro c hc
  have hne : c ≠ [] := chunkSentences_ne_nil T (sentencesOf text) c hc
  rcases chunkSentences_ok T (sentencesOf text) c hc with h | h
  · left
    rcases c with _ | ⟨s, rest⟩
    · exact absurd rfl hne
    · rcases rest with _ | ⟨t, ts⟩
      · exact ⟨s, rfl, rfl⟩
      · simp [ChunkOk] at h
  · right
    refine ⟨h, ?_⟩
    have hj := byteLen_joinSep_space c hne
    omega


end AutoIndex

namespace BatchProcessor

/-- Python `s[:n]` character slicing. -/
def pyTake (n : Nat) (s : String) : String := String.mk (s.data.take n)

/-- A text chunk as produced by `BatchPDFProcessor.create_chunks`. -/
structure Chunk where
  text : String
  layout_description : String
  page_num : Nat
deriving DecidableEq

/-- Constant `PineconeManager.dimension` = 1536 (text-embedding-3-small). -/
def dimension : Nat := 1536

/-- The vector id built in `batch_upload_vectors`: `f"{file_id}-{idx}"`. -/
def vectorId (file_id : String) (idx : Nat) : String :=
  file_id ++ "-" ++ toString idx

/-- A Pinecone vector as assembled by `batch_upload_vectors`; `chunk_id` and
`file_id` model the like-named metadata fields and `text` the
`chunk['text'][:3000]` metadata excerpt.  Embedding components are modelled as
integers: the code never inspects them, only their count. -/
structure PineVector where
  id : String
  values : List Int
  chunk_id : Nat
  file_id : String
  text : String
deriving DecidableEq

/-- The vector-assembly loop of `BatchPDFProcessor.batch_upload_vectors`:
`for idx, (embedding, chunk) in enumerate(zip(embeddings, chunks))`, skipping
any embedding whose dimension is not 1536
(`if not embedding or len(embedding) != 1536: ... continue`). -/
def buildVectorsFrom (file_id : String) :
    Nat → List (List Int × Chunk) → List PineVector
  | _, [] => []
  | idx, p :: rest =>
    if p.1 = [] ∨ p.1.length ≠ dimension then
      buildVectorsFrom file_id (idx + 1) rest
    else
      { id := vectorId file_id idx, values := p.1, chunk_id := idx,
        file_id := file_id, text := pyTake 3000 p.2.text }
        :: buildVectorsFrom file_id (idx + 1) rest

/-- The full upsert payload assembled by `batch_upload_vectors`. -/
def uploadPayload (file_id : String) (embeddings : List (List Int))
    (chunks : List Chunk) : List PineVector :=
  buildVectorsFrom file_id 0 (embeddings.zip chunks)

/-- Membership in the assembled payload, characterised positionally. -/
lemma mem_buildVectorsFrom (f : String) (l : List (List Int × Chunk)) :
    ∀ (idx : Nat) (v : PineVector), v ∈ buildVectorsFrom f idx l ↔
      ∃ k p, l.get? k = some p ∧ p.1.length = dimension ∧
        v = { id := vectorId f (idx + k), values := p.1, chunk_id := idx + k,
              file_id := f, text := pyTake 3000 p.2.text } := by
  induction l with
  | nil =>
    intro idx v
    simp [buildVectorsFrom]
  | cons p rest ih =>
    intro idx v
    by_cases hp : p.1 = [] ∨ p.1.length ≠ dimension
    · rw [buildVectorsFrom, if_pos hp, ih]
      constructor
      · rintro ⟨k, q, hq, hdim, hv⟩
        exact ⟨k + 1, q, by simpa using hq, hdim, by simpa [Nat.add_comm, Nat.add_assoc, Nat.add_left_comm] using hv⟩
      · rintro ⟨k, q, hq, hdim, hv⟩
        cases k with
        | zero =>
          rw [List.get?_cons_zero] at hq
          cases hq
          rcases hp with hp | hp
          · rw [hp] at hdim
            simp [dimension] at hdim
          · exact absurd hdim hp
        | succ k =>
          rw [List.get?_cons_succ] at hq
          exact ⟨k, q, hq, hdim, by simpa [Nat.add_comm, Nat.add_assoc, Nat.add_left_comm] using hv⟩
    · rw [buildVectorsFrom, if_neg hp]
      push_neg at hp
      constructor
      · intro hv
        rcases List.mem_cons.mp hv with hv | hv
        · exact ⟨0, p, rfl, hp.2, by simpa using hv⟩
        · obtain ⟨k, q, hq, hdim, hv⟩ := (ih (idx + 1) v).mp hv
          exact ⟨k + 1, q, by simpa using hq, hdim,
            by simpa [Nat.add_comm, Nat.add_assoc, Nat.add_left_comm] using hv⟩
      · rintro ⟨k, q, hq, hdim, hv⟩
        cases k with
        | zero =>
          rw [List.get?_cons_zero] at hq
          cases hq
          exact List.mem_cons.mpr (Or.inl (by simpa using hv))
        | succ k =>
          rw [List.get?_cons_succ] at hq
          refine List.mem_cons.mpr (Or.inr ((ih (idx + 1) v).mpr ⟨k, q, hq, hdim, ?_⟩))
          simpa [Nat.add_comm, Nat.add_assoc, Nat.add_left_comm] using hv

/-- The id set of the index namespace after an upsert: `index.upsert` is
overwrite-on-conflict, so an upsert adds exactly the payload's ids to the
key set. -/
def upsertIds (index : Finset String) (vs : List PineVector) : Finset String :=
  index ∪ (vs.map PineVector.id).toFinset

/-- C1: every vector id in the upsert payload is the deterministic function
`f"{file_id}-{idx}"` of the document id and the chunk ordinal, so re-ingesting
the same document builds the identical id set; and since upsert is
overwrite-on-conflict, the second run leaves the index key set - hence its
size - unchanged. -/
theorem c1_vector_ids_deterministic_idempotent (file_id : String)
    (embeddings : List (List Int)) (chunks : List Chunk) (index : Finset String) :
    (∀ v ∈ uploadPayload file_id embeddings chunks,
        v.id = vectorId file_id v.chunk_id) ∧
    upsertIds (upsertIds index (uploadPayload file_id embeddings chunks))
        (uploadPayload file_id embeddings chunks)
      = upsertIds index (uploadPayload file_id embeddings chunks) ∧
    (upsertIds (upsertIds index (uploadPayload file_id embeddings chunks))
        (uploadPayload file_id embeddings chunks)).card
      = (upsertIds index (uploadPayload file_id embeddings chunks)).card := by
  have h2 : upsertIds (upsertIds index (uploadPayload file_id embeddings chunks))
      (uploadPayload file_id embeddings chunks)
      = upsertIds index (uploadPayload file_id embeddings chunks) := by
    simp [upsertIds, Finset.union_assoc]
  refine ⟨?_, h2, by rw [h2]⟩
  intro v hv
  obtain ⟨k, p, -, -, hv⟩ := (mem_buildVectorsFrom file_id _ 0 v).mp hv
  rw [hv]

/-- A sample chunk and a sample well-formed embedding. -/
def egChunk : Chunk := { text := "hello", layout_description := "", page_num := 1 }

def egEmb : List Int := List.replicate 1536 0

lemma egEmb_length : egEmb.length = 1536 := List.length_replicate 1536 0

lemma egEmb_ne_nil : egEmb ≠ [] := by
  intro h
  have h2 := congrArg List.length h
  rw [egEmb_length] at h2
  simp at h2

lemma egEmb_cond : ¬(egEmb = [] ∨ egEmb.length ≠ dimension) := by
  simp [egEmb_length, dimension, egEmb_ne_nil]

lemma uploadPayload_eg :
    uploadPayload "doc" [egEmb] [egChunk]
      = [{ id := vectorId "doc" 0, values := egEmb, chunk_id := 0,
           file_id := "doc", text := pyTake 3000 "hello" }] := by
  show buildVectorsFrom "doc" 0 ([egEmb].zip [egChunk]) = _
  rw [List.zip_cons_cons, List.zip_nil_right, buildVectorsFrom, if_neg egEmb_cond,
    buildVectorsFrom]
  rfl

/-- C1 witness: the theorem applied to a concrete one-chunk document. -/
theorem c1_vector_ids_witness :
    ({ id := vectorId "doc" 0, values := egEmb, chunk_id := 0, file_id := "doc",
       text := pyTake 3000 "hello" } : PineVector).id = vectorId "doc" 0 :=
  (c1_vector_ids_deterministic_idempotent "doc" [egEmb] [egChunk] ∅).1 _
    (by rw [uploadPayload_eg]; exact List.mem_singleton_self _)

/-- C7: the dimension gate of `batch_upload_vectors`: every vector in the
upsert payload has exactly 1536 components, and its values are some input
embedding taken verbatim - never padded or truncated; an input embedding of
any other dimension contributes no payload vector at all (it is dropped); and
every embedding of the right dimension is still uploaded - the rest of the
batch continues. -/
theorem c7_dimension_gate (file_id : String) (embeddings : List (List Int))
    (chunks : List Chunk) :
    (∀ v ∈ uploadPayload file_id embeddings chunks, v.values.length = dimension) ∧
    (∀ v ∈ uploadPayload file_id embeddings chunks,
      ∃ k p, (embeddings.zip chunks).get? k = some p ∧ v.values = p.1 ∧
        v.chunk_id = k) ∧
    (∀ k p, (embeddings.zip chunks).get? k = some p → p.1.length ≠ dimension →
      ∀ v ∈ uploadPayload file_id embeddings chunks, v.chunk_id ≠ k) ∧
    (∀ k p, (embeddings.zip chunks).get? k = some p → p.1.length = dimension →
      { id := vectorId file_id k, values := p.1, chunk_id := k,
        file_id := file_id, text := pyTake 3000 p.2.text }
        ∈ uploadPayload file_id embeddings chunks) := by
  refine ⟨?_, ?_, ?_, ?_⟩
  · intro v hv
    obtain ⟨k, p, -, hdim, hv⟩ := (mem_buildVectorsFrom file_id _ 0 v).mp hv
    rw [hv]
    exact hdim
  · intro v hv
    obtain ⟨k, p, hk, -, hv⟩ := (mem_buildVectorsFrom file_id _ 0 v).mp hv
    exact ⟨k, p, hk, by simp [hv], by simp [hv]⟩
  · intro k p hk hdim v hv hid
    obtain ⟨k2, p2, hk2, hdim2, hv2⟩ := (mem_buildVectorsFrom file_id _ 0 v).mp hv
    rw [hv2] at hid
    simp at hid
    rw [hid] at hk2
    rw [hk] at hk2
    cases hk2
    exact hdim hdim2
  · intro k p hk hdim
    exact (mem_buildVectorsFrom file_id _ 0 _).mpr ⟨k, p, hk, hdim, by simp⟩

/-- C7 witness: with one malformed and one well-formed embedding, the
well-formed one is still uploaded. -/
theorem c7_dimension_gate_witness :
    ({ id := vectorId "doc" 1, values := egEmb, chunk_id := 1, file_id := "doc",
       text := pyTake 3000 "hello" } : PineVector)
      ∈ uploadPayload "doc" [[7], egEmb] [egChunk, egChunk] :=
  (c7_dimension_gate "doc" [[7], egEmb] [egChunk, egChunk]).2.2.2 1 (egEmb, egChunk)
    (by rfl)
    (by rw [show ((egEmb, egChunk) : List Int × Chunk).1 = egEmb from rfl, egEmb_length]; rfl)

/-- Constant `max_retries` = 3 in `batch_upsert` and `batch_create_embeddings`. -/
def max_retries : Nat := 3

/-- The retry loop shared by `PineconeManager.batch_upsert` and
`BatchPDFProcessor.batch_create_embeddings`
(`while retry_count < max_retries: try ... except ...`): attempt numbers
start at 1; `ok k` says whether attempt `k` of the underlying service call
succeeds; after failed attempt `k` with `k < maxRetries` the loop sleeps
`2 ** retry_count` seconds and retries; once `retry_count == max_retries`
the exception is re-raised (`none`).  On success it returns the number of
attempts made and the list of backoff sleeps. -/
def retryFrom (ok : Nat → Bool) : Nat → Nat → Option (Nat × List Nat)
  | 0, _ => none
  | remaining + 1, attempt =>
    if ok attempt then some (attempt, [])
    else if remaining = 0 then none
    else
      match retryFrom ok remaining (attempt + 1) with
      | some r => some (r.1, 2 ^ attempt :: r.2)
      | none => none

/-- One service call guarded by the source's retry loop with
`max_retries = 3`. -/
def retry_call (ok : Nat → Bool) : Option (Nat × List Nat) :=
  retryFrom ok max_retries 1

/-- Model of the `vectors[i : i + batch_size]` slicing of the upsert loop
(`for i in range(0, total_vectors, batch_size)`); the fuel argument makes the
recursion structural. -/
def sliceAux {α : Type} (bs : Nat) : Nat → List α → List (List α)
  | 0, _ => []
  | _, [] => []
  | fuel + 1, l => l.take bs :: sliceAux bs fuel (l.drop bs)

def sliceBatches {α : Type} (bs : Nat) (l : List α) : List (List α) :=
  sliceAux bs l.length l

/-- The per-batch upsert loop of `PineconeManager.batch_upsert`: batch `i` is
written by one `index.upsert` call under the retry loop (`ok i k` = attempt
`k` for batch `i` succeeds); a successful call commits the batch once; a
batch that exhausts its retries re-raises, the enclosing `except` returns
`False`, and the loop stops - batches already committed stay committed.
Returns the overall success flag and the committed writes in order. -/
def upsertLoop (ok : Nat → Nat → Bool) :
    Nat → List (List PineVector) → Bool × List (List PineVector)
  | _, [] => (true, [])
  | i, b :: rest =>
    match retry_call (ok i) with
    | some _ =>
      ((upsertLoop ok (i + 1) rest).1, b :: (upsertLoop ok (i + 1) rest).2)
    | none => (false, [])

/-- Model of `PineconeManager.batch_upsert` with `batch_size = 100`. -/
def batch_upsert (ok : Nat → Nat → Bool) (vectors : List PineVector) :
    Bool × List (List PineVector) :=
  upsertLoop ok 0 (sliceBatches 100 vectors)

/-- C6: the retry policy of the embedding / index-write batch calls: a call
that fails twice and then succeeds converges with exactly 3 attempts and
backoff sleeps of `2^1` and `2^2` seconds; a call failing three times
exhausts its retries and raises; in the upsert loop a fail-fail-succeed batch
is committed exactly once (no duplicate writes); and when a later batch
exhausts its retries the overall call fails but the batches already committed
are not rolled back. -/
theorem c6_retry_convergence :
    (∀ ok : Nat → Bool, ok 1 = false → ok 2 = false → ok 3 = true →
      retry_call ok = some (3, [2, 4])) ∧
    (∀ ok : Nat → Bool, ok 1 = false → ok 2 = false → ok 3 = false →
      retry_call ok = none) ∧
    (∀ (ok : Nat → Nat → Bool) (b : List PineVector),
      ok 0 1 = false → ok 0 2 = false → ok 0 3 = true →
      upsertLoop ok 0 [b] = (true, [b])) ∧
    (∀ (ok : Nat → Nat → Bool) (b1 b2 : List PineVector),
      ok 0 1 = true → (∀ k, ok 1 k = false) →
      upsertLoop ok 0 [b1, b2] = (false, [b1])) := by
  have hconv : ∀ ok : Nat → Bool, ok 1 = false → ok 2 = false → ok 3 = true →
      retry_call ok = some (3, [2, 4]) := by
    intro ok h1 h2 h3
    simp [retry_call, max_retries, retryFrom, h1, h2, h3]
  have hfail : ∀ ok : Nat → Bool, ok 1 = false → ok 2 = false → ok 3 = false →
      retry_call ok = none := by
    intro ok h1 h2 h3
    simp [retry_call, max_retries, retryFrom, h1, h2, h3]
  refine ⟨hconv, hfail, ?_, ?_⟩
  · intro ok b h1 h2 h3
    simp [upsertLoop, hconv (ok 0) h1 h2 h3]
  · intro ok b1 b2 h1 h2
    have hb1 : retry_call (ok 0) = some (1, []) := by
      simp [retry_call, max_retries, retryFrom, h1]
    have hb2 : retry_call (ok 1) = none := hfail (ok 1) (h2 1) (h2 2) (h2 3)
    simp [upsertLoop, hb1, hb2]

/-- C6 witness: a dependency that fails on attempts 1 and 2 and succeeds on
attempt 3. -/
theorem c6_retry_convergence_witness :
    retry_call (fun k => decide (3 ≤ k)) = some (3, [2, 4]) :=
  c6_retry_convergence.1 (fun k => decide (3 ≤ k)) (by decide) (by decide) (by decide)

/-- Events of `BatchPDFProcessor.process_single_pdf` after the embedding
stage: committed index writes, then - only on confirmed upload success - the
move of the source artifact to the completed location. -/
inductive PdfEvent
  | indexWrite (b : List PineVector)
  | moveCompleted
deriving DecidableEq

/-- The tail of `BatchPDFProcessor.process_single_pdf`:
`upload_success = await self.batch_upload_vectors(...)`; only
`if upload_success:` runs `move_to_completed`, otherwise an exception is
raised and the result is an error.  Returns the event trace and whether the
run succeeded. -/
def process_single_pdf (ok : Nat → Nat → Bool) (vectors : List PineVector) :
    List PdfEvent × Bool :=
  if (batch_upsert ok vectors).1 then
    ((batch_upsert ok vectors).2.map PdfEvent.indexWrite ++ [PdfEvent.moveCompleted],
      true)
  else
    ((batch_upsert ok vectors).2.map PdfEvent.indexWrite, false)

/-- When the upsert loop reports success, every batch was committed. -/
lemma upsertLoop_true_all_committed (ok : Nat → Nat → Bool) :
    ∀ (bs : List (List PineVector)) (i : Nat),
      (upsertLoop ok i bs).1 = true → (upsertLoop ok i bs).2 = bs := by
  intro bs
  induction bs with
  | nil => intro i _; rfl
  | cons b rest ih =>
    intro i h
    rcases hc : retry_call (ok i) with - | r
    · rw [upsertLoop, hc] at h
      simp at h
    · rw [upsertLoop, hc] at h ⊢
      simp only at h ⊢
      rw [ih (i + 1) h]

/-- C8: the artifact move happens only after the index write is confirmed:
if `moveCompleted` occurs in the trace then the run succeeded, the move is
the very last event, and every batch had been committed before it; and a
failed or unconfirmed upload produces no move at all. -/
theorem c8_move_only_after_index_success (ok : Nat → Nat → Bool)
    (vectors : List PineVector) :
    (PdfEvent.moveCompleted ∈ (process_single_pdf ok vectors).1 →
      (process_single_pdf ok vectors).2 = true ∧
      (process_single_pdf ok vectors).1.getLast? = some PdfEvent.moveCompleted ∧
      (batch_upsert ok vectors).2 = sliceBatches 100 vectors) ∧
    ((process_single_pdf ok vectors).2 = false →
      PdfEvent.moveCompleted ∉ (process_single_pdf ok vectors).1) := by
  by_cases h : (batch_upsert ok vectors).1
  · constructor
    · intro _
      refine ⟨by simp [process_single_pdf, h], by simp [process_single_pdf, h], ?_⟩
      exact upsertLoop_true_all_committed ok (sliceBatches 100 vectors) 0 h
    · intro hfalse
      rw [process_single_pdf, if_pos h] at hfalse
      simp at hfalse
  · constructor
    · intro hmem
      rw [process_single_pdf, if_neg h] at hmem
      simp only [List.mem_map] at hmem
      obtain ⟨b, -, hb⟩ := hmem
      exact absurd hb (by simp)
    · intro _
      rw [process_single_pdf, if_neg h]
      simp

/-- A sample vector for the C8 witness. -/
def egVec : PineVector :=
  { id := "doc-0", values := [0], chunk_id := 0, file_id := "doc",
    text := "hello" }

/-- C8 witness: with every call succeeding on its first attempt, the single
batch is committed and the move is the last event of a successful run. -/
theorem c8_move_only_after_index_success_witness :
    (process_single_pdf (fun _ _ => true) [egVec]).2 = true ∧
    (process_single_pdf (fun _ _ => true) [egVec]).1.getLast?
      = some PdfEvent.moveCompleted ∧
    (batch_upsert (fun _ _ => true) [egVec]).2 = sliceBatches 100 [egVec] :=
  (c8_move_only_after_index_success (fun _ _ => true) [egVec]).1 (by decide)

end BatchProcessor

namespace AutoIndex

/-- A row of the `ebooks` DynamoDB table of `auto-index.py`
(`table.get_item(Key={'file_key': ...})`). -/
structure EbookRecord where
  status : String
  total_chunks : Nat
deriving DecidableEq

/-- The distinct return paths of `EbookProcessor.process_file`. -/
inductive ProcessOutcome
  | skippedExisting
  | noText
  | noEmbeddings
  | indexed
deriving DecidableEq

/-- Model of `EbookProcessor.process_file`: the dedup lookup
(`if 'Item' in response: ... skipping ... return False`) runs before any
other work; otherwise the text is chunked and `create_embeddings` makes one
embedding-service call per chunk (`embedOk i` says whether the call for chunk
`i` succeeds; failed chunks are skipped with `continue`); with no embeddings
the function fails; otherwise the file is uploaded and the table row is
written with `status: 'indexed'`.  Returns the outcome, the number of
embedding-service calls made, and the updated table. -/
def process_file (embedOk : Nat → Bool) (table : List (String × EbookRecord))
    (original_filename : String) (text : String) :
    ProcessOutcome × Nat × List (String × EbookRecord) :=
  match table.find? (fun kv => kv.1 == original_filename) with
  | some _ => (ProcessOutcome.skippedExisting, 0, table)
  | none =>
    if text = "" then (ProcessOutcome.noText, 0, table)
    else
      if ((List.range (chunk_text MAX_CHUNK_SIZE text).length).countP embedOk) = 0 then
        (ProcessOutcome.noEmbeddings, (chunk_text MAX_CHUNK_SIZE text).length, table)
      else
        (ProcessOutcome.indexed, (chunk_text MAX_CHUNK_SIZE text).length,
          (original_filename,
            { status := "indexed",
              total_chunks :=
                (List.range (chunk_text MAX_CHUNK_SIZE text).length).countP embedOk })
            :: table)

/-- C2: the dedup short-circuit of `process_file`: when the table already has
a record for the file - in particular one with status `indexed` - the
function returns the skip outcome immediately, makes zero embedding-service
calls, and leaves the table unchanged. -/
theorem c2_dedup_short_circuit (embedOk : Nat → Bool)
    (table : List (String × EbookRecord)) (name text : String)
    (kv : String × EbookRecord)
    (hfound : table.find? (fun p => p.1 == name) = some kv)
    (_hstatus : kv.2.status = "indexed") :
    process_file embedOk table name text
      = (ProcessOutcome.skippedExisting, 0, table) := by
  simp [process_file, hfound]

/-- A sample already-indexed record. -/
def egRecord : EbookRecord := { status := "indexed", total_chunks := 3 }

/-- C2 witness: resubmitting a file whose record is already `indexed`. -/
theorem c2_dedup_short_circuit_witness :
    process_file (fun _ => true) [("book.pdf", egRecord)] "book.pdf" "some text"
      = (ProcessOutcome.skippedExisting, 0, [("book.pdf", egRecord)]) :=
  c2_dedup_short_circuit (fun _ => true) [("book.pdf", egRecord)] "book.pdf"
    "some text" ("book.pdf", egRecord) (by decide) (by decide)

end AutoIndex

namespace AutoIndexing

/-- A row of the `ebook-store` DynamoDB table of `auto-indexing.py`. -/
structure StoreRecord where
  status : String
deriving DecidableEq

/-- The distinct ways one loop iteration of `process_files` can end. -/
inductive ScanOutcome
  | skippedExisting
  | indexed
  | errorContinue
deriving DecidableEq

/-- One iteration of the `process_files` loop of `auto-indexing.py` for one
file key: the dedup lookup (`if 'Item' in response: ... continue`) comes
first; then the whole extract-embed-thumbnail block runs inside
`try: ... except Exception: ... continue` - when it raises
(`procOk = false`) the loop continues WITHOUT reaching the `table.put_item`
call, so no record of any kind is written; only a successful block falls
through to `table.put_item(... 'status': 'indexed' ...)`. -/
def process_files_step (table : List (String × StoreRecord)) (file_key : String)
    (procOk : Bool) : ScanOutcome × List (String × StoreRecord) :=
  match table.find? (fun kv => kv.1 == file_key) with
  | some _ => (ScanOutcome.skippedExisting, table)
  | none =>
    if procOk then
      (ScanOutcome.indexed, (file_key, { status := "indexed" }) :: table)
    else
      (ScanOutcome.errorContinue, table)

/-- C10: when processing a file raises, the scan writes no status record at
all for it (the table is unchanged - no failed and no indexed entry) and
moves on; therefore the dedup lookup of a subsequent scan still finds no
record and the file is processed from scratch. -/
theorem c10_failure_writes_no_record (table : List (String × StoreRecord))
    (file_key : String)
    (hnone : table.find? (fun kv => kv.1 == file_key) = none) :
    process_files_step table file_key false
      = (ScanOutcome.errorContinue, table) ∧
    (process_files_step table file_key false).2.find?
        (fun kv => kv.1 == file_key) = none ∧
    (process_files_step table file_key true).1 = ScanOutcome.indexed := by
  refine ⟨by simp [process_files_step, hnone], ?_, by simp [process_files_step, hnone]⟩
  simp [process_files_step, hnone]

/-- C10 witness: a failing file on an empty status table. -/
theorem c10_failure_writes_no_record_witness :
    process_files_step [] "book.epub" false = (ScanOutcome.errorContinue, []) ∧
    (process_files_step [] "book.epub" false).2.find?
        (fun kv => kv.1 == "book.epub") = none ∧
    (process_files_step [] "book.epub" true).1 = ScanOutcome.indexed :=
  c10_failure_writes_no_record [] "book.epub" (by decide)

end AutoIndexing

namespace LangchainAI

/-- A message of the `/api/langchain/chat` request payload
(`{'type': 'user'|'bot', 'text': ...}`). -/
structure RawMsg where
  type : String
  text : String
deriving DecidableEq

/-- A LangChain chat message: `HumanMessage` (`isHuman`) or `AIMessage`. -/
structure ChatMsg where
  isHuman : Bool
  content : String
deriving DecidableEq

/-- The history-building loop of `get_response`: items typed `"user"` become
`HumanMessage`, items typed `"bot"` become `AIMessage`, anything else is
dropped. -/
def buildHistory (messages : List RawMsg) : List ChatMsg :=
  messages.filterMap (fun m =>
    if m.type == "user" then some { isHuman := true, content := m.text }
    else if m.type == "bot" then some { isHuman := false, content := m.text }
    else none)

/-- The `query_transforming_retriever_chain` branch of `get_response`
(`RunnableBranch`): if `len(x.get("messages", [])) == 1`, the retriever is
queried with that message's content (`x["messages"][-1].content`) and no LLM
call is made; otherwise `query_transform_prompt | chat | StrOutputParser`
makes exactly one LLM call and its raw text output (`llm history`) is the
retriever query, verbatim.  Returns the retriever query and the number of
LLM reformulation calls made. -/
def retriever_query (llm : List ChatMsg → String) (history : List ChatMsg) :
    String × Nat :=
  if history.length == 1 then
    ((history.getLast?.map ChatMsg.content).getD "", 0)
  else
    (llm history, 1)

/-- C3: reformulation branching: a one-message history issues zero LLM
reformulation calls and the retrieval query is that message's raw text; a
longer history (e.g. three turns) issues exactly one LLM reformulation call
and its raw text output is used verbatim as the retrieval query. -/
theorem c3_reformulation_branching (llm : List ChatMsg → String) :
    (∀ m : ChatMsg, retriever_query llm [m] = (m.content, 0)) ∧
    (∀ history : List ChatMsg, 1 < history.length →
      retriever_query llm history = (llm history, 1)) := by
  constructor
  · intro m
    rfl
  · intro history h
    have hne : (history.length == 1) = false := by
      rw [beq_eq_false_iff_ne]
      omega
    simp [retriever_query, hne]

/-- A sample single turn, three-turn history, and reformulating LLM. -/
def egTurn : ChatMsg := { isHuman := true, content := "what is photosynthesis" }

def egHistory3 : List ChatMsg :=
  [egTurn, { isHuman := false, content := "a process in plants" },
    { isHuman := true, content := "tell me more" }]

def egLlm : List ChatMsg → String := fun _ => "photosynthesis in plants"

/-- C3 witness: the two branches at a concrete 1-turn and 3-turn history. -/
theorem c3_reformulation_branching_witness :
    retriever_query egLlm [egTurn] = ("what is photosynthesis", 0) ∧
    retriever_query egLlm egHistory3 = ("photosynthesis in plants", 1) :=
  ⟨(c3_reformulation_branching egLlm).1 egTurn,
    (c3_reformulation_branching egLlm).2 egHistory3 (by decide)⟩

/-- The keys of one chunk of the conversational chain's stream
(`RunnablePassthrough.assign(context=...).assign(answer=...)`). -/
inductive StreamKey
  | messages
  | context
  | answer
deriving DecidableEq

/-- The delta escaping of the streaming loop of `get_response`:
`chunk[key].replace("\n", "\\n").replace("\t", "\\t")`. -/
def processed_chunk (s : String) : String :=
  PyStr.replaceChar '\t' "\\t" (PyStr.replaceChar '\n' "\\n" s)

/-- One server-sent event: `yield f'data: {processed_chunk}\n\n'`. -/
def sse_event (delta : String) : String :=
  "data: " ++ processed_chunk delta ++ "\n\n"

/-- The streaming loop of `get_response`
(`for chunk in stream: for key in chunk: if key == "answer": yield ...`):
each stream chunk is a key-value map; only `answer` values are emitted, each
as one SSE data event; the generator simply ends when the stream ends,
emitting no terminal event of any kind; a stream aborted by an exception
after a prefix yields exactly the events of that prefix. -/
def sse_events : List (List (StreamKey × String)) → List String
  | [] => []
  | chunk :: rest =>
    chunk.filterMap
      (fun kv => if kv.1 == StreamKey.answer then some (sse_event kv.2) else none)
      ++ sse_events rest

/-- The answer deltas carried by a stream, in order. -/
def answer_deltas (stream : List (List (StreamKey × String))) : List String :=
  (stream.map (fun chunk =>
    chunk.filterMap
      (fun kv => if kv.1 == StreamKey.answer then some kv.2 else none))).flatten

/-- C9 (amended): the streaming endpoint emits exactly one `data:` event per
answer delta, in order (with newlines and tabs escaped), and nothing else:
the stream ends with the last delta, with no done marker; and the events of
a concatenation are the concatenation of the events, so a generation aborted
after a prefix of the stream has emitted exactly that prefix's data events -
a truncated answer carries no terminal error or done event. -/
theorem c9_stream_no_done_marker (stream : List (List (StreamKey × String))) :
    sse_events stream = (answer_deltas stream).map sse_event ∧
    (∀ s1 s2 : List (List (StreamKey × String)),
      sse_events (s1 ++ s2) = sse_events s1 ++ sse_events s2) := by
  constructor
  · induction stream with
    | nil => rfl
    | cons chunk rest ih =>
      simp only [sse_events, answer_deltas, List.map_cons, List.flatten_cons,
        List.map_append, List.map_filterMap] at ih ⊢
      rw [ih]
      congr 1
      apply List.filterMap_congr
      intro kv _
      by_cases hkv : kv.1 == StreamKey.answer
      · simp [hkv]
      · simp [hkv]
  · intro s1 s2
    induction s1 with
    | nil => rfl
    | cons chunk rest ih =>
      simp only [List.cons_append, sse_events, List.append_eq, ih, List.append_assoc]

/-- C9 counterexample: the full event sequence of a completed one-delta
answer is the single data event - its last element is the delta event
itself, so no done marker terminates the stream. -/
theorem c9_counterexample :
    sse_events [[(StreamKey.answer, "hi")]] = ["data: hi\n\n"] ∧
    (sse_events [[(StreamKey.answer, "hi")]]).getLast? = some (sse_event "hi") := by
  decide

end LangchainAI

namespace BatchProcessor

/-- Terminal punctuation of the `create_chunks` sentence splitter (the
lookbehind class `[.!?]`). -/
def isTermPunct (c : Char) : Bool := c == '.' || c == '!' || c == '?'

/-- Model of `re.split(r'(?<=[.!?])\s+', text)` on char lists: the text is
split at every maximal whitespace run immediately preceded by terminal
punctuation, and the matched whitespace is discarded.  `inSep` says the scan
is inside such a run, `prevPunct` says the character before the current
position is terminal punctuation; the piece under construction is carried
reversed. -/
def createSplitAux : Bool → Bool → List Char → List Char → List (List Char)
  | _, _, piece, [] => [piece.reverse]
  | true, _, piece, c :: rest =>
    if c.isWhitespace then createSplitAux true false piece rest
    else createSplitAux false (isTermPunct c) (c :: piece) rest
  | false, prevPunct, piece, c :: rest =>
    if c.isWhitespace && prevPunct then
      piece.reverse :: createSplitAux true false [] rest
    else createSplitAux false (isTermPunct c) (c :: piece) rest

/-- The sentence sequence scanned by `BatchPDFProcessor.create_chunks`:
`sentences = re.split(r'(?<=[.!?])\s+', text)` - unlike
`EbookProcessor.chunk_text` it neither strips the pieces nor appends any
punctuation. -/
def sentencesOfPage (text : String) : List String :=
  (createSplitAux false false [] text.data).map String.mk

/-- Python `len(sentence)` as used by `create_chunks`: the character count,
NOT the UTF-8 byte count. -/
def charLen (s : String) : Nat := s.data.length

/-- Constant `BatchPDFProcessor.CHUNK_SIZE`. -/
def CHUNK_SIZE : Nat := 1000

/-- One iteration of the `for sentence in sentences` loop of
`BatchPDFProcessor.create_chunks`: same shape as the `chunk_text` loop, but
`current_length` adds up `len(sentence)` in characters (the joining spaces
again not counted). -/
def ccStep (T : Nat) (acc : List (List String) × List String × Nat)
    (s : String) : List (List String) × List String × Nat :=
  if acc.2.2 + charLen s > T then
    (if acc.2.1 = [] then acc.1 else acc.1 ++ [acc.2.1], [s], charLen s)
  else
    (acc.1, acc.2.1 ++ [s], acc.2.2 + charLen s)

/-- The chunks of `create_chunks`, kept as sentence lists (before
`' '.join`); the trailing `if current_chunk:` flush included. -/
def ccChunkSentences (T : Nat) (ss : List String) : List (List String) :=
  let acc := ss.foldl (ccStep T) ([], [], 0)
  if acc.2.1 = [] then acc.1 else acc.1 ++ [acc.2.1]

/-- Model of `BatchPDFProcessor.create_chunks` for one page: regex sentence
split, greedy packing by character count against `CHUNK_SIZE` (kept as the
parameter `T`), and `' '.join`; every chunk copies the page's
`layout_description` and page number verbatim. -/
def create_chunks (T : Nat) (page_text layout : String) (page_num : Nat) :
    List Chunk :=
  (ccChunkSentences T (sentencesOfPage page_text)).map
    (fun c => { text := PyStr.joinSep " " c, layout_description := layout,
                page_num := page_num })

example : sentencesOfPage "Hello world" = ["Hello world"] := by decide

example : sentencesOfPage "a.\nb" = ["a.", "b"] := by decide

example : sentencesOfPage "éé. éé. éé." = ["éé.", "éé.", "éé."] := by decide

example :
    (create_chunks 10 "éé. éé. éé." "" 1).map Chunk.text = ["éé. éé. éé."] := by
  decide

/-- Invariant of a single `create_chunks` chunk: a single sentence, or
sentence character counts totalling at most `T`. -/
def CcChunkOk (T : Nat) (c : List String) : Prop :=
  c.length = 1 ∨ (c.map charLen).sum ≤ T

/-- Loop invariant of `create_chunks`: `current_length` is the character
total of `current_chunk`, every emitted chunk satisfies `CcChunkOk`, and so
does the chunk under construction. -/
def CcAccOk (T : Nat) (acc : List (List String) × List String × Nat) : Prop :=
  acc.2.2 = (acc.2.1.map charLen).sum ∧
  (∀ c ∈ acc.1, CcChunkOk T c) ∧ (acc.2.1 ≠ [] → CcChunkOk T acc.2.1)

lemma ccAccOk_step (T : Nat) (acc : List (List String) × List String × Nat)
    (s : String) (h : CcAccOk T acc) : CcAccOk T (ccStep T acc s) := by
  obtain ⟨h1, h2, h3⟩ := h
  by_cases hgt : acc.2.2 + charLen s > T
  · simp only [ccStep, if_pos hgt]
    refine ⟨by simp, ?_, fun _ => Or.inl rfl⟩
    intro c hc
    by_cases hcur : acc.2.1 = []
    · rw [if_pos hcur] at hc
      exact h2 c hc
    · rw [if_neg hcur] at hc
      rcases List.mem_append.mp hc with hc | hc
      · exact h2 c hc
      · rw [List.mem_singleton.mp hc]
        exact h3 hcur
  · simp only [ccStep, if_neg hgt]
    refine ⟨by simp; exact h1, h2, fun _ => Or.inr ?_⟩
    push_neg at hgt
    simpa [h1] using hgt

lemma ccAccOk_foldl (T : Nat) (ss : List String)
    (acc : List (List String) × List String × Nat) (h : CcAccOk T acc) :
    CcAccOk T (ss.foldl (ccStep T) acc) := by
  induction ss generalizing acc with
  | nil => exact h
  | cons s rest ih => exact ih _ (ccAccOk_step T acc s h)

lemma ccChunkSentences_ok (T : Nat) (ss : List String) :
    ∀ c ∈ ccChunkSentences T ss, CcChunkOk T c := by
  have h := ccAccOk_foldl T ss ([], [], 0) ⟨rfl, by simp, by simp⟩
  obtain ⟨-, h2, h3⟩ := h
  intro c hc
  unfold ccChunkSentences at hc
  by_cases hcur : (ss.foldl (ccStep T) ([], [], 0)).2.1 = []
  · rw [if_pos hcur] at hc
    exact h2 c hc
  · rw [if_neg hcur] at hc
    rcases List.mem_append.mp hc with hc | hc
    · exact h2 c hc
    · rw [List.mem_singleton.mp hc]
      exact h3 hcur

lemma cc_ne_nil_step (T : Nat) (acc : List (List String) × List String × Nat)
    (s : String) (h : ∀ c ∈ acc.1, c ≠ []) :
    ∀ c ∈ (ccStep T acc s).1, c ≠ [] := by
  by_cases hgt : acc.2.2 + charLen s > T
  · simp only [ccStep, if_pos hgt]
    by_cases hcur : acc.2.1 = []
    · simpa [hcur] using h
    · intro c hc
      rw [if_neg hcur] at hc
      rcases List.mem_append.mp hc with hc | hc
      · exact h c hc
      · rw [List.mem_singleton.mp hc]
        exact hcur
  · simpa [ccStep, if_neg hgt] using h

lemma cc_ne_nil_foldl (T : Nat) (ss : List String)
    (acc : List (List String) × List String × Nat) (h : ∀ c ∈ acc.1, c ≠ []) :
    ∀ c ∈ (ss.foldl (ccStep T) acc).1, c ≠ [] := by
  induction ss generalizing acc with
  | nil => exact h
  | cons s rest ih => exact ih _ (cc_ne_nil_step T acc s h)

/-- Every chunk of `create_chunks` holds at least one sentence. -/
lemma ccChunkSentences_ne_nil (T : Nat) (ss : List String) :
    ∀ c ∈ ccChunkSentences T ss, c ≠ [] := by
  have h := cc_ne_nil_foldl T ss ([], [], 0) (by simp)
  intro c hc
  unfold ccChunkSentences at hc
  by_cases hcur : (ss.foldl (ccStep T) ([], [], 0)).2.1 = []
  · rw [if_pos hcur] at hc
    exact h c hc
  · rw [if_neg hcur] at hc
    rcases List.mem_append.mp hc with hc | hc
    · exact h c hc
    · rw [List.mem_singleton.mp hc]
      exact hcur

lemma foldl_ccStep_flatten (T : Nat) (ss : List String) :
    ∀ (chunks : List (List String)) (cur : List String) (curSize : Nat),
      (ss.foldl (ccStep T) (chunks, cur, curSize)).1.flatten ++
          (ss.foldl (ccStep T) (chunks, cur, curSize)).2.1
        = chunks.flatten ++ cur ++ ss := by
  induction ss with
  | nil => intro chunks cur curSize; simp
  | cons s rest ih =>
    intro chunks cur curSize
    simp only [List.foldl_cons]
    by_cases hgt : curSize + charLen s > T
    · by_cases hcur : cur = []
      · have hstep : ccStep T (chunks, cur, curSize) s = (chunks, [s], charLen s) := by
          simp [ccStep, hgt, hcur]
        rw [hstep, ih]
        simp [hcur]
      · have hstep : ccStep T (chunks, cur, curSize) s
            = (chunks ++ [cur], [s], charLen s) := by
          simp [ccStep, hgt, hcur]
        rw [hstep, ih]
        simp
    · have hstep : ccStep T (chunks, cur, curSize) s
          = (chunks, cur ++ [s], curSize + charLen s) := by
        simp [ccStep, hgt]
      rw [hstep, ih]
      simp

lemma ccChunkSentences_flatten (T : Nat) (ss : List String) :
    (ccChunkSentences T ss).flatten = ss := by
  have h := foldl_ccStep_flatten T ss [] [] 0
  unfold ccChunkSentences
  by_cases hcur : (ss.foldl (ccStep T) ([], [], 0)).2.1 = []
  · rw [if_pos hcur]
    rw [hcur] at h
    simpa using h
  · rw [if_neg hcur]
    simpa using h

lemma charLen_append (a b : String) :
    charLen (a ++ b) = charLen a + charLen b := by
  simp [charLen]

/-- Joining a nonempty chunk with single spaces has the sentences' character
total plus one separator character per additional sentence. -/
lemma charLen_joinSep_space (c : List String) (hc : c ≠ []) :
    charLen (PyStr.joinSep " " c) + 1 = (c.map charLen).sum + c.length := by
  induction c with
  | nil => exact absurd rfl hc
  | cons s rest ih =>
    cases rest with
    | nil => simp [PyStr.joinSep]
    | cons t ts =>
      have h := ih (by simp)
      show charLen (s ++ " " ++ PyStr.joinSep " " (t :: ts)) + 1 = _
      rw [charLen_append, charLen_append]
      have hsp : charLen " " = 1 := by decide
      simp only [List.map_cons, List.sum_cons, List.length_cons] at h ⊢
      omega

/-- Size bound for `BatchPDFProcessor.create_chunks`: every chunk either
consists of a single sentence emitted whole (never truncated), or has
sentence character counts - Python `len`, NOT bytes - totalling at most `T`;
in the latter case the chunk text's character count can exceed `T` only by
the single-space separators, i.e. it is at most
`T + (number of sentences - 1)` characters.  No byte bound follows: with
multi-byte characters a chunk within the character budget can be far larger
in bytes. -/
lemma create_chunks_size_bound (T : Nat) (text : String) :
    ∀ c ∈ ccChunkSentences T (sentencesOfPage text),
      (∃ s, c = [s] ∧ PyStr.joinSep " " c = s) ∨
      ((c.map charLen).sum ≤ T ∧
        charLen (PyStr.joinSep " " c) + 1 ≤ T + c.length) := by
  intro c hc
  have hne : c ≠ [] := ccChunkSentences_ne_nil T (sentencesOfPage text) c hc
  rcases ccChunkSentences_ok T (sentencesOfPage text) c hc with h | h
  · left
    rcases c with _ | ⟨s, rest⟩
    · exact absurd rfl hne
    · rcases rest with _ | ⟨t, ts⟩
      · exact ⟨s, rfl, rfl⟩
      · simp [CcChunkOk] at h
  · right
    refine ⟨h, ?_⟩
    have hj := charLen_joinSep_space c hne
    omega

end BatchProcessor

/-- C4 (amended): each chunker bounds a multi-sentence chunk by `T` in its
own measure - UTF-8 bytes for `EbookProcessor.chunk_text`, characters
(Python `len`) for `BatchPDFProcessor.create_chunks` - with the joining
spaces uncounted: every chunk either is a single sentence emitted whole
(never truncated, even when longer than `T`), or its sentences total at most
`T` in that measure and the chunk text exceeds `T` only by the one separator
per additional sentence, again in that measure.  Neither chunker guarantees
the claimed byte bound `T` for the chunk itself: `chunk_text` chunks can
exceed `T` in bytes by the joining spaces, and `create_chunks` bounds
characters, not bytes. -/
theorem c4_chunk_size_amended_both (T : Nat) (text : String) :
    (∀ c ∈ AutoIndex.chunkSentences T (AutoIndex.sentencesOf text),
      (∃ s, c = [s] ∧ PyStr.joinSep " " c = s) ∨
      ((c.map PyStr.byteLen).sum ≤ T ∧
        PyStr.byteLen (PyStr.joinSep " " c) + 1 ≤ T + c.length)) ∧
    (∀ c ∈ BatchProcessor.ccChunkSentences T (BatchProcessor.sentencesOfPage text),
      (∃ s, c = [s] ∧ PyStr.joinSep " " c = s) ∨
      ((c.map BatchProcessor.charLen).sum ≤ T ∧
        BatchProcessor.charLen (PyStr.joinSep " " c) + 1 ≤ T + c.length)) :=
  ⟨AutoIndex.chunk_text_size_bound T text,
    BatchProcessor.create_chunks_size_bound T text⟩

/-- C4 witness: the amended bounds applied to the two-sentence chunk
`["aaaa.", "bbbb."]` of `chunk_text 10 "aaaa.bbbb."` and to the
three-sentence chunk of `create_chunks` at `T = 10` on `"éé. éé. éé."`. -/
theorem c4_chunk_size_amended_both_witness :
    ((∃ s, (["aaaa.", "bbbb."] : List String) = [s] ∧
        PyStr.joinSep " " ["aaaa.", "bbbb."] = s) ∨
      (((["aaaa.", "bbbb."] : List String).map PyStr.byteLen).sum ≤ 10 ∧
        PyStr.byteLen (PyStr.joinSep " " ["aaaa.", "bbbb."]) + 1
          ≤ 10 + (["aaaa.", "bbbb."] : List String).length)) ∧
    ((∃ s, (["éé.", "éé.", "éé."] : List String) = [s] ∧
        PyStr.joinSep " " ["éé.", "éé.", "éé."] = s) ∨
      (((["éé.", "éé.", "éé."] : List String).map BatchProcessor.charLen).sum ≤ 10 ∧
        BatchProcessor.charLen (PyStr.joinSep " " ["éé.", "éé.", "éé."]) + 1
          ≤ 10 + (["éé.", "éé.", "éé."] : List String).length)) :=
  ⟨(c4_chunk_size_amended_both 10 "aaaa.bbbb.").1 ["aaaa.", "bbbb."] (by decide),
    (c4_chunk_size_amended_both 10 "éé. éé. éé.").2 ["éé.", "éé.", "éé."] (by decide)⟩

/-- C4 counterexample, for both cited chunkers at target size `T = 10`:
`chunk_text` turns `"aaaa.bbbb."` into the chunk `"aaaa. bbbb."` of 11 bytes
although its two sentences are each at most 10 bytes (the joining space
overflows the bound); and `create_chunks` turns `"éé. éé. éé."` into one
chunk of 17 bytes although each of its three sentences is 5 bytes - its
budget counts characters (3 per sentence, 9 in total), not bytes.  In both
cases a chunk longer than `T` bytes holds several sentences, none longer
than `T`, contradicting the claim that only a chunk holding a single
sentence longer than `T` may exceed `T`. -/
theorem c4_counterexample_both :
    AutoIndex.chunk_text 10 "aaaa.bbbb." = ["aaaa. bbbb.", "."] ∧
    AutoIndex.sentencesOf "aaaa.bbbb." = ["aaaa.", "bbbb.", "."] ∧
    PyStr.byteLen "aaaa. bbbb." = 11 ∧
    PyStr.byteLen "aaaa." ≤ 10 ∧ PyStr.byteLen "bbbb." ≤ 10 ∧
    (BatchProcessor.create_chunks 10 "éé. éé. éé." "" 1).map
        BatchProcessor.Chunk.text = ["éé. éé. éé."] ∧
    BatchProcessor.sentencesOfPage "éé. éé. éé." = ["éé.", "éé.", "éé."] ∧
    PyStr.byteLen "éé. éé. éé." = 17 ∧ PyStr.byteLen "éé." ≤ 10 := by
  decide

/-- C5 (amended): each chunker's chunks partition its own sentence sequence,
in order and without loss or duplication: concatenating the chunks of
`chunk_text` reconstructs `sentencesOf text` (the '.'-split fragments,
stripped, with '.' re-appended), and concatenating the chunks of
`create_chunks` reconstructs `sentencesOfPage text` (the pieces of
`re.split(r'(?<=[.!?])\s+', text)`).  Neither reconstructs the raw input
text: `chunk_text` collapses whitespace and fabricates a trailing '.', and
`create_chunks` discards the matched separator whitespace, substituting
single spaces; neither applies any overlap. -/
theorem c5_chunks_partition_sentences_both (T : Nat) (text : String) :
    (AutoIndex.chunkSentences T (AutoIndex.sentencesOf text)).flatten
      = AutoIndex.sentencesOf text ∧
    (BatchProcessor.ccChunkSentences T (BatchProcessor.sentencesOfPage text)).flatten
      = BatchProcessor.sentencesOfPage text :=
  ⟨AutoIndex.chunkSentences_join T (AutoIndex.sentencesOf text),
    BatchProcessor.ccChunkSentences_flatten T (BatchProcessor.sentencesOfPage text)⟩

/-- C5 counterexample, for both cited chunkers: `chunk_text 1000 "ab"`
yields `["ab."]`, whose concatenation (there is no overlap to subtract) is
`"ab." ≠ "ab"`; and `create_chunks` on `"a.\nb"` yields the single chunk
`"a. b"`, whose concatenation `"a. b" ≠ "a.\nb"` - the newline separator
was discarded and replaced by a space. -/
theorem c5_counterexample_both :
    AutoIndex.chunk_text 1000 "ab" = ["ab."] ∧
    PyStr.concatAll (AutoIndex.chunk_text 1000 "ab") ≠ "ab" ∧
    (BatchProcessor.create_chunks 1000 "a.\nb" "" 1).map
        BatchProcessor.Chunk.text = ["a. b"] ∧
    PyStr.concatAll ((BatchProcessor.create_chunks 1000 "a.\nb" "" 1).map
        BatchProcessor.Chunk.text) ≠ "a.\nb" := by
  decide
